import Mathlib

/-!
Verification of the coag-sense-tracker device synchronization engine.

The definitions below are a shallow embedding of the TypeScript/JavaScript
sources of the repository:

* `src/electron-app/src/preload.js` (bundled with the Electron main process):
  `handleConnection` / `processMessages` (message framer and session state
  machine), `parseObservationsXml` (observation extractor),
  `finalizeTransfer` (reconciliation merge), `saveData` (persistence) and the
  `import-data` IPC handler.
* `src/mobile-app/src/services/bluetooth.ts`: `processMessages`,
  `parseObservationsXml`.
* `src/unnamed/part_003` (mobile storage service): `addReadings`.
* `src/unnamed/part_002` (PDF export) and
  `src/mobile-app/src/screens/SettingsScreen.tsx` (dashboard): the
  time-in-range computation.

Modelling conventions:

* JavaScript numbers are modelled as `ℚ`; strings as `String`, and the
  session byte buffer as `List Char`.
* `Array.prototype.sort` (required to be a stable sort since ES2019) is
  modelled by a stable insertion sort: the stable sort of a list with respect
  to a total comparator is unique, so this is the same function computed by
  any conforming engine.  `localeCompare` on the ASCII ISO-8601 timestamp
  strings this program sorts is modelled as lexicographic order by code
  point.
* Regex field extraction that no claim depends on (device serial/model from
  the Hello message) is elided; regex field extraction that claims do depend
  on (`new_observations_qty`, `<SVC>` groups, numeric values) is modelled
  explicitly at the level described at each definition.
-/

namespace CoagSense

section StableSort

variable {α : Type} (le : α → α → Bool)

/-- Insert `a` into `l`, before the first element `b` with `le a b`.  Used to
model the stable JS `Array.prototype.sort`. -/
def insertSorted (a : α) : List α → List α
  | [] => [a]
  | b :: t => if le a b then a :: b :: t else b :: insertSorted a t

/-- Stable sort by the comparator `le`; models `Array.prototype.sort` with a
comparator, which is required to be a stable sort. -/
def stableSort : List α → List α
  | [] => []
  | a :: l => insertSorted le a (stableSort l)

end StableSort

/-- Character comparison by code point. -/
def charLE (a b : Char) : Bool :=
  decide (a ≤ b)

/-- Lexicographic comparison of character lists; the order `localeCompare`
induces on the ASCII ISO-8601 timestamp strings this program sorts. -/
def lexLE : List Char → List Char → Bool
  | [], _ => true
  | _ :: _, [] => false
  | a :: as, b :: bs => if a = b then lexLE as bs else charLE a b

/-- One stored clinical reading, as built by `parseObservationsXml` and stored
by `finalizeTransfer` (electron) / `addReadings` (mobile).  JS numbers are
modelled as `ℚ`. -/
structure Reading where
  timestamp : String
  inr : ℚ
  pt_seconds : ℚ
  status : String
  sequence : Nat
  deriving DecidableEq, Repr

/-- Comparator used to sort readings:
`(a, b) => a.timestamp.localeCompare(b.timestamp)`. -/
def tsLE (a b : Reading) : Bool :=
  lexLE a.timestamp.data b.timestamp.data

/-- `allReadings.forEach((r, i) => r.sequence = i + 1)` from
`finalizeTransfer` (preload.js line 459), as a pure function: assign
consecutive sequence numbers starting at `n`. -/
def renumberFrom : Nat → List Reading → List Reading
  | _, [] => []
  | n, r :: rest => { r with sequence := n } :: renumberFrom (n + 1) rest

/-- A reading with its display sequence number erased, used to state
preservation of readings across the sequence renumbering that
`finalizeTransfer` performs. -/
def stripSeq (r : Reading) : Reading :=
  { r with sequence := 0 }

/-- The deduplication filter of `finalizeTransfer` (preload.js lines
447-450): the set of existing timestamps is
`existingReadings.map(r => r.timestamp).filter(Boolean)` (the `Boolean`
filter drops the empty string, the only falsy string), and candidates whose
timestamp is in that set are dropped. -/
def uniqueNewReadings (existingReadings newReadings : List Reading) : List Reading :=
  let existingTimestamps := (existingReadings.map (·.timestamp)).filter (fun t => t ≠ "")
  newReadings.filter (fun r => !existingTimestamps.contains r.timestamp)

/-- The merge performed by `finalizeTransfer` (preload.js lines 443-459):
drop candidates whose timestamp already exists, append the rest, sort by
timestamp, and renumber the sequence field `1..N`. -/
def mergeReadings (existingReadings newReadings : List Reading) : List Reading :=
  renumberFrom 1
    (stableSort tsLE (existingReadings ++ uniqueNewReadings existingReadings newReadings))

/-- The merge performed by the mobile `addReadings` (part_003 lines 39-43):
same deduplication and sort, but no `.filter(Boolean)` on the existing
timestamps and no sequence renumbering. -/
def addReadingsMerge (existingReadings newReadings : List Reading) : List Reading :=
  let existingTimestamps := existingReadings.map (·.timestamp)
  let uniqueNew := newReadings.filter (fun r => !existingTimestamps.contains r.timestamp)
  stableSort tsLE (existingReadings ++ uniqueNew)

/-! ### Message framer and session state machine (electron `handleConnection`) -/

/-- Outbound protocol messages written to the socket.  Only the fields the
spec claims mention are tracked: the kind (`ACK.R01` with its `AA`/`AR` type
code, or `REQ.R01` with the fixed `ROBS` code) and the control identifier. -/
inductive OutMsg where
  | ack (accept : Bool) (controlId : Nat)
  | reqObservations (controlId : Nat)
  deriving DecidableEq, Repr

/-- Renderer notifications issued through `sendToRenderer`. -/
inductive Event where
  | deviceIdent
  | statusReport (total : Nat)
  | requesting
  | progress (received total : Nat)
  | errorSignal
  | transferComplete (newCount total : Nat)
  deriving DecidableEq, Repr

/-- The per-connection mutable state of `handleConnection` (preload.js lines
233-241 plus the global `state.observationsReceived`), together with the
outbound messages and renderer events it has produced, in order. -/
structure Sess where
  buffer : List Char
  controlId : Nat
  totalAvailable : Nat
  sentRequest : Bool
  observationsReceived : Nat
  rawObservations : List (List Char)
  outbound : List OutMsg
  events : List Event
  deriving DecidableEq, Repr

/-- Fresh session state: empty buffer, control id seeded at 20000. -/
def initSess : Sess :=
  { buffer := []
    controlId := 20000
    totalAvailable := 0
    sentRequest := false
    observationsReceived := 0
    rawObservations := []
    outbound := []
    events := [] }

/-- `buffer.indexOf(pat)`: index of the first occurrence of `pat` in `l`, or
`none` when absent (JS returns `-1`). -/
def idxOfSub : List Char → List Char → Option Nat
  | l, pat =>
    if pat.isPrefixOf l then some 0
    else
      match l with
      | [] => none
      | _ :: t => (idxOfSub t pat).map (· + 1)

/-- `buffer.includes(pat)`. -/
def hasSub (l pat : List Char) : Bool :=
  (idxOfSub l pat).isSome

/-- Occurrence count of `pat` in `l`, counting every position at which `pat`
starts.  Models `(message.match(/<SVC>/g) || []).length`: the pattern
`<SVC>` cannot overlap itself, so counting start positions agrees with the
non-overlapping global regex count. -/
def countPrefixMatches : List Char → List Char → Nat
  | l, pat =>
    let here := if pat.isPrefixOf l then 1 else 0
    match l with
    | [] => here
    | _ :: t => here + countPrefixMatches t pat

/-- Value of a digit list read in base 10. -/
def digitsToNat (ds : List Char) : Nat :=
  ds.foldl (fun n c => n * 10 + (c.toNat - 48)) 0

def helEnd : List Char := "</HEL.R01>".data

def dstEnd : List Char := "</DST.R01>".data

def obsEnd : List Char := "</OBS.R01>".data

def eotEnd : List Char := "</EOT.R01>".data

def escEnd : List Char := "</ESC.R01>".data

def errStart : List Char := "<ERR".data

def svcStart : List Char := "<SVC>".data

def qtyAttr : List Char := "new_observations_qty V=\"".data

/-- `message.match(/new_observations_qty V="(\d+)"/)` followed by `parseInt`,
with 0 when there is no match (preload.js lines 293-294): find the attribute,
read the following digit run.  (The model reads the digit run after the first
occurrence of the attribute text; the messages this program handles contain
the attribute at most once.) -/
def parseQty (l : List Char) : Nat :=
  match idxOfSub l qtyAttr with
  | some i =>
    let ds := (l.drop (i + qtyAttr.length)).takeWhile (·.isDigit)
    if ds.isEmpty then 0 else digitsToNat ds
  | none => 0

/-- `sendAck` (preload.js lines 353-367): pre-increment the control id and
write an `ACK.R01` with type code `AA` (accept) or `AR` (reject). -/
def sendAck (accept : Bool) (s : Sess) : Sess :=
  { s with
    controlId := s.controlId + 1
    outbound := s.outbound ++ [OutMsg.ack accept (s.controlId + 1)] }

/-- `sendRequestObservations` (preload.js lines 369-382): pre-increment the
control id and write a `REQ.R01` carrying the fixed `ROBS` request code. -/
def sendRequestObservations (s : Sess) : Sess :=
  { s with
    controlId := s.controlId + 1
    outbound := s.outbound ++ [OutMsg.reqObservations (s.controlId + 1)] }

/-- The `HEL.R01` branch of `processMessages` (preload.js lines 265-283):
if the end tag is present, consume the buffer through it, notify the renderer
of the device identity (the serial/model regex capture is elided), and send
an accepting acknowledgment. -/
def helStep (s : Sess) : Sess :=
  match idxOfSub s.buffer helEnd with
  | some i =>
    sendAck true
      { s with
        buffer := s.buffer.drop (i + helEnd.length)
        events := s.events ++ [Event.deviceIdent] }
  | none => s

/-- The tail of the `DST.R01` branch (preload.js lines 299-304): after the
acknowledgment went out, send the read-observations request exactly when no
request has been sent this session, setting the flag and notifying the
renderer first. -/
def dstStepTail (s2 : Sess) : Sess :=
  if s2.sentRequest then s2
  else
    sendRequestObservations
      { s2 with sentRequest := true, events := s2.events ++ [Event.requesting] }

/-- The `DST.R01` branch (preload.js lines 286-305): consume the message,
parse the total-available count, notify, acknowledge with accept, and then —
only if no request has been sent this session — set the flag, notify, and
send the read-observations request. -/
def dstStep (s : Sess) : Sess :=
  match idxOfSub s.buffer dstEnd with
  | some i =>
    let total := parseQty (s.buffer.take (i + dstEnd.length))
    dstStepTail (sendAck true
      { s with
        buffer := s.buffer.drop (i + dstEnd.length)
        totalAvailable := total
        events := s.events ++ [Event.statusReport total] })
  | none => s

/-- The `OBS.R01` branch (preload.js lines 308-327): consume the message,
count its `<SVC>` groups, stash the raw message for finalization, notify
progress, and acknowledge with the configured accept/reject policy. -/
def obsStep (acceptObservations : Bool) (s : Sess) : Sess :=
  match idxOfSub s.buffer obsEnd with
  | some i =>
    let message := s.buffer.take (i + obsEnd.length)
    let svcCount := countPrefixMatches message svcStart
    let s1 :=
      { s with
        buffer := s.buffer.drop (i + obsEnd.length)
        observationsReceived := s.observationsReceived + svcCount
        rawObservations := s.rawObservations ++ [message] }
    sendAck acceptObservations
      { s1 with events := s1.events ++ [Event.progress s1.observationsReceived s1.totalAvailable] }
  | none => s

/-- The `EOT.R01` branch (preload.js lines 330-336): consume the message and
acknowledge with accept. -/
def eotStep (s : Sess) : Sess :=
  match idxOfSub s.buffer eotEnd with
  | some i => sendAck true { s with buffer := s.buffer.drop (i + eotEnd.length) }
  | none => s

/-- The `ESC.R01` / `<ERR` branch (preload.js lines 339-342): notify an error
signal; the buffer is not consumed and no acknowledgment is sent. -/
def escStep (s : Sess) : Sess :=
  if hasSub s.buffer escEnd || hasSub s.buffer errStart then
    { s with events := s.events ++ [Event.errorSignal] }
  else s

/-- One call to `processMessages` (preload.js lines 263-343): each message
kind is checked once, in this fixed order. -/
def processMessages (acceptObservations : Bool) (s : Sess) : Sess :=
  escStep (eotStep (obsStep acceptObservations (dstStep (helStep s))))

/-- The socket `data` handler (preload.js lines 243-248): append the chunk to
the buffer, then run one processing pass. -/
def onData (acceptObservations : Bool) (s : Sess) (chunk : List Char) : Sess :=
  processMessages acceptObservations { s with buffer := s.buffer ++ chunk }

/-- A whole session: the data chunks arriving on the socket, in order,
starting from a fresh session state. -/
def runSession (acceptObservations : Bool) (chunks : List (List Char)) : Sess :=
  chunks.foldl (onData acceptObservations) initSess

/-- `filter` predicate: is this outbound message a `REQ.R01`? -/
def isReqMsg : OutMsg → Bool
  | OutMsg.reqObservations _ => true
  | _ => false

/-- Number of read-observations requests in an outbound message list. -/
def countReq (l : List OutMsg) : Nat :=
  (l.filter isReqMsg).length

/-- Is this renderer event the status-report notification? -/
def isStatusEvent : Event → Bool
  | Event.statusReport _ => true
  | _ => false

/-- Whether any StatusReport message has been processed, read off the event
log. -/
def hasStatus (es : List Event) : Bool :=
  es.any isStatusEvent

/-! ### Observation extractor (`parseObservationsXml`) -/

/-- One `<SVC>...</SVC>` group of an ObservationBatch body, with the raw
attribute strings the per-field regexes of `parseObservationsXml`
(preload.js lines 394-422) capture: `none` models a regex that found no
match.  A captured attribute value matches `([^"]+)` and is therefore never
the empty string; theorems state this as a hypothesis where it matters. -/
structure RawSvc where
  dttm : Option String
  statusRaw : Option String
  inrRaw : Option String
  ptRaw : Option String
  deriving DecidableEq, Repr

/-- `parseFloat` followed by the `isNaN` guard (preload.js lines 413-421) on
a decimal literal: optional sign, digit run, optional fraction; the longest
valid numeric prefix is read and trailing garbage ignored, `none` when no
digit is found (NaN).  Exponent forms and `Infinity` do not occur in device
output and are not modelled. -/
def parseNumChars (cs : List Char) : Option ℚ :=
  let signAndRest : ℚ × List Char :=
    match cs with
    | '-' :: t => (-1, t)
    | '+' :: t => (1, t)
    | _ => (1, cs)
  let intPart := signAndRest.2.takeWhile (·.isDigit)
  let afterInt := signAndRest.2.dropWhile (·.isDigit)
  let fracPart :=
    match afterInt with
    | '.' :: t => t.takeWhile (·.isDigit)
    | _ => []
  if intPart.isEmpty && fracPart.isEmpty then none
  else
    some (signAndRest.1 *
      ((digitsToNat intPart : ℚ) + (digitsToNat fracPart : ℚ) / (10 ^ fracPart.length)))

/-- `parseFloat` + `isNaN` guard on a string. -/
def parseNum (s : String) : Option ℚ :=
  parseNumChars s.data

/-- The `obs` object built for one group by `parseObservationsXml`
(preload.js lines 396-422): fields stay absent when their regex does not
match or the numeric value is NaN. -/
structure ObsRec where
  timestamp : Option String
  status : Option String
  inr : Option ℚ
  pt_seconds : Option ℚ
  deriving DecidableEq, Repr

/-- Field extraction for one group (preload.js lines 396-422). -/
def buildObs (g : RawSvc) : ObsRec :=
  { timestamp := g.dttm
    status := g.statusRaw
    inr := g.inrRaw.bind parseNum
    pt_seconds := g.ptRaw.bind parseNum }

/-- The acceptance test of preload.js line 425:
`obs.timestamp && obs.inr && obs.inr > 0 && obs.pt_seconds && obs.pt_seconds > 0`,
with JS truthiness (`""` and `0` are falsy, absent fields are falsy). -/
def obsValid (o : ObsRec) : Bool :=
  (match o.timestamp with
   | some t => t ≠ ""
   | none => false)
  && (match o.inr with
      | some v => decide (v ≠ 0) && decide (v > 0)
      | none => false)
  && (match o.pt_seconds with
      | some v => decide (v ≠ 0) && decide (v > 0)
      | none => false)

/-- `parseObservationsXml` (preload.js lines 389-431) over the list of
`<SVC>` groups of one message body: build each group's record and push it to
the output exactly when it passes the acceptance test. -/
def parseObservationsXml : List RawSvc → List ObsRec
  | [] => []
  | g :: t =>
    let obs := buildObs g
    if obsValid obs then obs :: parseObservationsXml t else parseObservationsXml t

/-- The acceptance condition as the spec states it, on a raw group: the
timestamp attribute is present, the primary assay value (code 34714-6)
parses as a number strictly greater than zero, and the secondary duration
value (code 5902-2) parses as a number strictly greater than zero. -/
def specAccept (g : RawSvc) : Bool :=
  g.dttm.isSome
  && (match g.inrRaw.bind parseNum with
      | some v => decide (0 < v)
      | none => false)
  && (match g.ptRaw.bind parseNum with
      | some v => decide (0 < v)
      | none => false)

/-! ### Time-in-range computation -/

/-- JS `Math.round`: round half toward positive infinity. -/
def jsRound (q : ℚ) : ℤ :=
  ⌊q + 1 / 2⌋

/-- The "Time in Range" / "In Range" figure of `generateReportHTML`
(part_002 lines 43-48) and `DashboardScreen` (SettingsScreen.tsx lines
967-972): the rounded percentage of readings whose INR lies within the
inclusive target range, and the literal number 0 when there are no readings
at all. -/
def reportTTR (readings : List Reading) (lo hi : ℚ) : ℤ :=
  let inRangeCount :=
    (readings.filter (fun r => decide (lo ≤ r.inr) && decide (r.inr ≤ hi))).length
  if 0 < readings.length then jsRound ((inRangeCount : ℚ) / (readings.length : ℚ) * 100)
  else 0

/-- Fraction of the segment from value `v0` to value `v1` (linear in time)
spent inside `[lo, hi]`, endpoints inclusive. -/
def inFrac (v0 v1 lo hi : ℚ) : ℚ :=
  if v0 = v1 then (if lo ≤ v0 ∧ v0 ≤ hi then 1 else 0)
  else
    let a := (lo - v0) / (v1 - v0)
    let b := (hi - v0) / (v1 - v0)
    max 0 (min 1 (max a b) - max 0 (min a b))

/-- Modelled from the spec: the Rosendaal linear-interpolation
Time-in-Therapeutic-Range of the Range Estimator section (spec §4.5), which
is absent from the sources under src/ (the repository README attributes it
to the web dashboard, which is not among the provided files).  Input is a
chronologically sorted list of (time, value) pairs; for each consecutive
pair the fraction of the interval whose interpolated value lies within
`[lo, hi]` is counted as in-range time; the metric is total in-range time
over total observed time, times 100, and is undefined (`none`) for fewer
than two readings. -/
def rosendaalTTR (readings : List (ℚ × ℚ)) (lo hi : ℚ) : Option ℚ :=
  if readings.length < 2 then none
  else
    let pairs := readings.zip readings.tail
    let inTime := (pairs.map (fun p => (p.2.1 - p.1.1) * inFrac p.1.2 p.2.2 lo hi)).sum
    let totalTime := (pairs.map (fun p => p.2.1 - p.1.1)).sum
    if totalTime = 0 then none else some (inTime / totalTime * 100)

/-! ### Persistence, finalization, import -/

/-- The snapshot object written by `finalizeTransfer` and read back by
`loadData` (preload.js lines 462-467): last-sync timestamp, reading count,
and the ordered reading list.  The device serial/model pair is elided (no
claim concerns it). -/
structure StoreData where
  lastSync : Option String
  totalReadings : Nat
  readings : List Reading
  deriving DecidableEq, Repr

/-- `saveData` (preload.js lines 496-502): `fs.writeFileSync` wrapped in a
try/catch whose catch clause only logs to the console.  The file-system
outcome is the parameter `fsOk`; on failure the persisted file keeps its
previous contents and no exception escapes — the caller cannot tell the
difference.  Returns the resulting persisted contents. -/
def saveData (fsOk : Bool) (persisted newData : StoreData) : StoreData :=
  if fsOk then newData else persisted

/-- What `finalizeTransfer` leaves behind: the persisted store and the
renderer events it sent. -/
structure FinalizeOut where
  persisted : StoreData
  events : List Event
  merged : List Reading
  deriving DecidableEq, Repr

/-- `finalizeTransfer` (preload.js lines 433-478), starting from the parsed
candidate readings: merge into the loaded store, write the snapshot through
`saveData`, and send `transfer-complete` to the renderer.  No error event is
ever sent from here, whatever `fsOk` is. -/
def finalizeTransfer (fsOk : Bool) (persisted : StoreData) (now : String)
    (newReadings : List Reading) : FinalizeOut :=
  let existingReadings := persisted.readings
  let uniqueNew := uniqueNewReadings existingReadings newReadings
  let allReadings := mergeReadings existingReadings newReadings
  let newData : StoreData :=
    { lastSync := some now
      totalReadings := allReadings.length
      readings := allReadings }
  { persisted := saveData fsOk persisted newData
    events := [Event.transferComplete uniqueNew.length allReadings.length]
    merged := allReadings }

/-- A parsed JSON import file, as validated by the `import-data` handler
(preload.js lines 603-627): `readings` is `some` exactly when the parsed
content has a `readings` field that `Array.isArray` accepts. -/
structure ImportFile where
  lastSync : Option String
  totalReadings : Nat
  readings : Option (List Reading)
  deriving DecidableEq, Repr

/-- Outcome of the `import-data` handler. -/
structure ImportResult where
  persisted : StoreData
  success : Bool
  deriving DecidableEq, Repr

/-- The `import-data` handler (preload.js lines 612-625): when the parsed
content has an array-valued `readings` field, `saveData(data)` persists the
imported content wholesale as the new store; otherwise the store is left
unchanged and the call fails. -/
def importData (persisted : StoreData) (content : ImportFile) : ImportResult :=
  match content.readings with
  | some rs =>
    { persisted :=
        { lastSync := content.lastSync
          totalReadings := content.totalReadings
          readings := rs }
      success := true }
  | none => { persisted := persisted, success := false }

/-! ### Concrete wire messages used in counterexamples and witnesses -/

/-- A complete `DST.R01` status-report message announcing 2 observations. -/
def dstChunk : List Char :=
  "<DST.R01><DST.new_observations_qty V=\"2\"/></DST.R01>".data

/-- A complete `OBS.R01` message with one `<SVC>` group. -/
def obsChunkA : List Char :=
  "<OBS.R01><SVC>a</SVC></OBS.R01>".data

/-- A second complete `OBS.R01` message with one `<SVC>` group. -/
def obsChunkB : List Char :=
  "<OBS.R01><SVC>b</SVC></OBS.R01>".data

/-- The session invariant behind the request-exactly-once property: the
`sentRequest` flag mirrors whether a StatusReport has been processed, and
the outbound log contains either no request at all (flag down) or exactly
one request, immediately preceded by the accepting acknowledgment sent for
the StatusReport that triggered it and carrying the next control id
(flag up). -/
def ReqInvT (flag : Bool) (es : List Event) (out : List OutMsg) : Prop :=
  flag = hasStatus es ∧
    (if flag then
      ∃ pre c post,
        out = pre ++ [OutMsg.ack true c, OutMsg.reqObservations (c + 1)] ++ post ∧
          countReq pre = 0 ∧ countReq post = 0
    else countReq out = 0)

/-- The invariant specialised to a session state. -/
def ReqInv (s : Sess) : Prop :=
  ReqInvT s.sentRequest s.events s.outbound

end CoagSense

/-! ## Theorems -/

namespace CoagSense

theorem insertSorted_perm {α : Type} (le : α → α → Bool) (a : α) (l : List α) :
    List.Perm (insertSorted le a l) (a :: l) := by
  induction l with
  | nil => rfl
  | cons b t ih =>
    by_cases h : le a b = true
    · rw [insertSorted, if_pos h]
    · rw [insertSorted, if_neg h]
      exact (ih.cons b).trans (List.Perm.swap a b t)

theorem stableSort_perm {α : Type} (le : α → α → Bool) (l : List α) :
    List.Perm (stableSort le l) l := by
  induction l with
  | nil => rfl
  | cons a l ih =>
    exact (insertSorted_perm le a (stableSort le l)).trans (ih.cons a)

theorem mem_stableSort {α : Type} (le : α → α → Bool) {a : α} {l : List α} :
    a ∈ stableSort le l ↔ a ∈ l :=
  (stableSort_perm le l).mem_iff

theorem pairwise_insertSorted {α : Type} (le : α → α → Bool)
    (trans : ∀ a b c, le a b → le b c → le a c)
    (total : ∀ a b, le a b || le b a) (a : α) {l : List α}
    (h : l.Pairwise (fun x y => le x y)) :
    (insertSorted le a l).Pairwise (fun x y => le x y) := by
  induction l with
  | nil => simp [insertSorted]
  | cons b t ih =>
    rcases List.pairwise_cons.mp h with ⟨hb, ht⟩
    by_cases hab : le a b = true
    · rw [insertSorted, if_pos hab]
      refine List.pairwise_cons.mpr ⟨?_, h⟩
      intro y hy
      rcases List.mem_cons.mp hy with rfl | hy
      · exact hab
      · exact trans a b y hab (hb y hy)
    · rw [insertSorted, if_neg hab]
      refine List.pairwise_cons.mpr ⟨?_, ih ht⟩
      intro y hy
      have hba : le b a = true := by
        have h2 := total a b
        cases h1 : le a b with
        | true => exact absurd h1 hab
        | false => simpa [h1] using h2
      rcases List.mem_cons.mp ((insertSorted_perm le a t).mem_iff.mp hy) with rfl | h'
      · exact hba
      · exact hb y h'

theorem pairwise_stableSort {α : Type} (le : α → α → Bool)
    (trans : ∀ a b c, le a b → le b c → le a c)
    (total : ∀ a b, le a b || le b a) (l : List α) :
    (stableSort le l).Pairwise (fun x y => le x y) := by
  induction l with
  | nil => simp [stableSort]
  | cons a l ih => exact pairwise_insertSorted le trans total a ih

theorem insertSorted_of_forall_le {α : Type} (le : α → α → Bool) (a : α) {l : List α}
    (h : ∀ b ∈ l, le a b) : insertSorted le a l = a :: l := by
  cases l with
  | nil => rfl
  | cons b t => simp [insertSorted, h b (List.mem_cons_self b t)]

theorem stableSort_of_pairwise {α : Type} (le : α → α → Bool) {l : List α}
    (h : l.Pairwise (fun x y => le x y)) : stableSort le l = l := by
  induction l with
  | nil => rfl
  | cons a l ih =>
    rcases List.pairwise_cons.mp h with ⟨ha, hl⟩
    rw [stableSort, ih hl, insertSorted_of_forall_le le a ha]

theorem lexLE_total (xs ys : List Char) : lexLE xs ys || lexLE ys xs := by
  induction xs generalizing ys with
  | nil => simp [lexLE]
  | cons a as ih =>
    cases ys with
    | nil => simp [lexLE]
    | cons b bs =>
      by_cases hab : a = b
      · subst hab
        simpa [lexLE] using ih bs
      · have hba : b ≠ a := fun h => hab h.symm
        simp only [lexLE, if_neg hab, if_neg hba, charLE]
        rcases le_total a b with h | h
        · simp [h]
        · simp [h]

theorem lexLE_trans {xs ys zs : List Char}
    (h1 : lexLE xs ys) (h2 : lexLE ys zs) : lexLE xs zs := by
  induction xs generalizing ys zs with
  | nil => simp [lexLE]
  | cons a as ih =>
    cases ys with
    | nil => simp [lexLE] at h1
    | cons b bs =>
      cases zs with
      | nil => simp [lexLE] at h2
      | cons c cs =>
        by_cases hab : a = b
        · subst hab
          by_cases hbc : a = c
          · subst hbc
            simp only [lexLE, if_pos rfl] at h1 h2 ⊢
            exact ih h1 h2
          · simp only [lexLE, if_pos rfl] at h1
            simpa only [lexLE, if_neg hbc] using h2
        · have halb : a < b := by
            have hle : a ≤ b := by
              have := h1
              simp only [lexLE, if_neg hab, charLE, decide_eq_true_eq] at this
              exact this
            exact lt_of_le_of_ne hle hab
          by_cases hbc : b = c
          · subst hbc
            simp only [lexLE, if_neg hab, charLE, decide_eq_true_eq]
            exact le_of_lt halb
          · have hblc : b < c := by
              have hle : b ≤ c := by
                simp only [lexLE, if_neg hbc, charLE, decide_eq_true_eq] at h2
                exact h2
              exact lt_of_le_of_ne hle hbc
            have halc : a < c := lt_trans halb hblc
            have hac : a ≠ c := ne_of_lt halc
            simp only [lexLE, if_neg hac, charLE, decide_eq_true_eq]
            exact le_of_lt halc

theorem tsLE_trans (a b c : Reading) : tsLE a b → tsLE b c → tsLE a c :=
  fun h1 h2 => lexLE_trans h1 h2

theorem tsLE_total (a b : Reading) : tsLE a b || tsLE b a :=
  lexLE_total a.timestamp.data b.timestamp.data

theorem renumberFrom_length (n : Nat) (l : List Reading) :
    (renumberFrom n l).length = l.length := by
  induction l generalizing n with
  | nil => rfl
  | cons r t ih => simp [renumberFrom, ih]

theorem renumberFrom_map_sequence (n : Nat) (l : List Reading) :
    (renumberFrom n l).map (·.sequence) = List.range' n l.length := by
  induction l generalizing n with
  | nil => rfl
  | cons r t ih => simp [renumberFrom, List.range', ih]

theorem renumberFrom_map_timestamp (n : Nat) (l : List Reading) :
    (renumberFrom n l).map (·.timestamp) = l.map (·.timestamp) := by
  induction l generalizing n with
  | nil => rfl
  | cons r t ih => simp [renumberFrom, ih]

theorem renumberFrom_renumberFrom (n m : Nat) (l : List Reading) :
    renumberFrom n (renumberFrom m l) = renumberFrom n l := by
  induction l generalizing n m with
  | nil => rfl
  | cons r t ih => simp [renumberFrom, ih]

theorem renumberFrom_mem_stripSeq {r : Reading} {l : List Reading} (n : Nat)
    (h : r ∈ l) : ∃ r' ∈ renumberFrom n l, stripSeq r' = stripSeq r := by
  induction l generalizing n with
  | nil => cases h
  | cons x t ih =>
    rcases List.mem_cons.mp h with rfl | h
    · exact ⟨{ r with sequence := n }, List.mem_cons_self _ _, rfl⟩
    · rcases ih (n + 1) h with ⟨r', hr', he⟩
      exact ⟨r', List.mem_cons_of_mem _ hr', he⟩

theorem pairwise_tsLE_of_map_timestamp_eq {l l' : List Reading}
    (hmap : l.map (·.timestamp) = l'.map (·.timestamp))
    (h : l.Pairwise (fun a b => tsLE a b)) :
    l'.Pairwise (fun a b => tsLE a b) := by
  have h1 : (l.map (·.timestamp)).Pairwise (fun s t => lexLE s.data t.data) :=
    List.pairwise_map.mpr h
  rw [hmap] at h1
  exact List.pairwise_map.mp h1

theorem mergeReadings_pairwise (E C : List Reading) :
    (mergeReadings E C).Pairwise (fun a b => tsLE a b) := by
  unfold mergeReadings
  apply pairwise_tsLE_of_map_timestamp_eq (renumberFrom_map_timestamp 1 _).symm
  exact pairwise_stableSort tsLE tsLE_trans tsLE_total _

theorem mergeReadings_map_timestamp_perm (E C : List Reading) :
    List.Perm ((mergeReadings E C).map (·.timestamp))
      ((E ++ uniqueNewReadings E C).map (·.timestamp)) := by
  unfold mergeReadings
  rw [renumberFrom_map_timestamp]
  exact (stableSort_perm tsLE _).map _

/-- Claim C5: after every merge, the sequence numbers of the resulting
reading set are exactly `1..N` (`N` the merged size) with no gaps or
duplicates — the list of sequence fields is literally `[1, ..., N]` — and
the merged list is in ascending timestamp order, so reading `k` of that
order carries sequence number `k`. -/
theorem merge_sequence_invariant (E C : List Reading) :
    (mergeReadings E C).map (·.sequence) = List.range' 1 (mergeReadings E C).length ∧
      (mergeReadings E C).Pairwise (fun a b => tsLE a b) := by
  constructor
  · conv_lhs => rw [mergeReadings]
    conv_rhs => rw [mergeReadings]
    rw [renumberFrom_map_sequence, renumberFrom_length]
  · exact mergeReadings_pairwise E C

/-- Claim C4: the merge never deletes a previously stored reading: every
reading of the existing set reappears in the merged set (with only its
display sequence number rewritten, in the electron merge) — in both the
electron `finalizeTransfer` merge and the mobile `addReadings` merge. -/
theorem merge_preserves_existing (E C : List Reading) (r : Reading) (h : r ∈ E) :
    (∃ r' ∈ mergeReadings E C, stripSeq r' = stripSeq r) ∧ r ∈ addReadingsMerge E C := by
  constructor
  · unfold mergeReadings
    exact renumberFrom_mem_stripSeq 1 ((mem_stableSort tsLE).mpr (List.mem_append_left _ h))
  · unfold addReadingsMerge
    exact (mem_stableSort tsLE).mpr (List.mem_append_left _ h)

/-- Witness for C4 at a concrete store and candidate list. -/
theorem merge_preserves_existing_witness :
    (∃ r' ∈ mergeReadings [⟨"2024-01-02T08:00:00", 2, 12, "NRM", 1⟩]
        [⟨"2024-01-01T08:00:00", 3, 13, "HI", 5⟩],
      stripSeq r' = stripSeq ⟨"2024-01-02T08:00:00", 2, 12, "NRM", 1⟩) ∧
      ⟨"2024-01-02T08:00:00", 2, 12, "NRM", 1⟩ ∈
        addReadingsMerge [⟨"2024-01-02T08:00:00", 2, 12, "NRM", 1⟩]
          [⟨"2024-01-01T08:00:00", 3, 13, "HI", 5⟩] :=
  merge_preserves_existing _ _ _ (by decide)

theorem uniqueNewReadings_idem (E C : List Reading)
    (h : ∀ c ∈ C, c.timestamp ≠ "") :
    uniqueNewReadings (mergeReadings E C) C = [] := by
  apply List.filter_eq_nil_iff.mpr
  intro c hc
  suffices hmem : c.timestamp ∈
      (((mergeReadings E C).map (·.timestamp)).filter (fun t => t ≠ "")) by
    simp only [Bool.not_eq_true, Bool.not_eq_false]
    simpa using hmem
  apply List.mem_filter.mpr
  refine ⟨?_, by simpa using h c hc⟩
  apply (mergeReadings_map_timestamp_perm E C).mem_iff.mpr
  rw [List.map_append]
  by_cases hmemE : c.timestamp ∈ (E.map (·.timestamp)).filter (fun t => t ≠ "")
  · exact List.mem_append_left _ ((List.mem_filter.mp hmemE).1)
  · apply List.mem_append_right
    apply List.mem_map_of_mem
    apply List.mem_filter.mpr
    refine ⟨hc, ?_⟩
    have hfc : ((E.map (fun x => x.timestamp)).filter (fun t => t ≠ "")).contains
        c.timestamp = false := by
      simpa using hmemE
    simp only [uniqueNewReadings, hfc, Bool.not_false]

/-- Claim C3: the reconciliation merge is idempotent — merging the same
candidate list twice produces exactly the merged list of the single merge.
The hypothesis that candidate timestamps are nonempty reflects what the
extractor guarantees: a candidate's timestamp is captured by the regex
`([^"]+)`, which never produces the empty string (the only string the
store's `.filter(Boolean)` deduplication set would drop). -/
theorem merge_idempotent (E C : List Reading) (h : ∀ c ∈ C, c.timestamp ≠ "") :
    mergeReadings (mergeReadings E C) C = mergeReadings E C := by
  have hsorted : stableSort tsLE (mergeReadings E C) = mergeReadings E C :=
    stableSort_of_pairwise tsLE (mergeReadings_pairwise E C)
  calc mergeReadings (mergeReadings E C) C
      = renumberFrom 1
          (stableSort tsLE (mergeReadings E C ++ uniqueNewReadings (mergeReadings E C) C)) :=
        rfl
    _ = renumberFrom 1 (stableSort tsLE (mergeReadings E C)) := by
        rw [uniqueNewReadings_idem E C h, List.append_nil]
    _ = renumberFrom 1 (mergeReadings E C) := by rw [hsorted]
    _ = mergeReadings E C := by
        conv_lhs => rw [mergeReadings]
        conv_rhs => rw [mergeReadings]
        rw [renumberFrom_renumberFrom]

/-- Witness for C3 at a concrete store and candidate list (one duplicate
timestamp, one new). -/
theorem merge_idempotent_witness :
    mergeReadings
        (mergeReadings [⟨"2024-01-02T08:00:00", 2, 12, "NRM", 1⟩]
          [⟨"2024-01-01T08:00:00", 3, 13, "HI", 5⟩, ⟨"2024-01-02T08:00:00", 2, 12, "NRM", 6⟩])
        [⟨"2024-01-01T08:00:00", 3, 13, "HI", 5⟩, ⟨"2024-01-02T08:00:00", 2, 12, "NRM", 6⟩] =
      mergeReadings [⟨"2024-01-02T08:00:00", 2, 12, "NRM", 1⟩]
        [⟨"2024-01-01T08:00:00", 3, 13, "HI", 5⟩, ⟨"2024-01-02T08:00:00", 2, 12, "NRM", 6⟩] :=
  merge_idempotent _ _ (by decide)

/-- Claim C1 is false on the code: when two complete `OBS.R01` messages
arrive concatenated in a single append, the single processing pass that
follows the append extracts only the first — the second complete message
(whose end-tag is present) stays unprocessed in the buffer, and is only
extracted by a later pass, when (and if) more data arrives. -/
theorem framer_single_pass_keeps_second_message :
    (runSession true [obsChunkA ++ obsChunkB]).rawObservations = [obsChunkA] ∧
      (runSession true [obsChunkA ++ obsChunkB]).buffer = obsChunkB ∧
      hasSub (runSession true [obsChunkA ++ obsChunkB]).buffer obsEnd = true ∧
      (runSession true [obsChunkA ++ obsChunkB, []]).rawObservations =
        [obsChunkA, obsChunkB] := by
  decide

/-- Claim C9's ordering is false on the code: on the first StatusReport the
engine sends the accepting acknowledgment first (control id 20001) and the
read-observations request after it (control id 20002) — the request is not
emitted before the acknowledgment. -/
theorem ack_before_request_counterexample :
    (runSession true [dstChunk]).outbound =
        [OutMsg.ack true 20001, OutMsg.reqObservations 20002] ∧
      (runSession true [dstChunk]).outbound.head? = some (OutMsg.ack true 20001) := by
  decide

/-- Claim C8 is false on the code: when the persistence write fails during
finalization, `saveData` swallows the error (its catch clause only logs to
the console), the store keeps its old contents — the merge result is lost —
and `finalizeTransfer` still reports `transfer-complete` with the merged
readings as if the transfer had succeeded; no error event reaches the user. -/
theorem finalize_write_failure_is_silent :
    (finalizeTransfer false ⟨none, 0, []⟩ "2024-02-02T00:00:00"
        [⟨"2024-01-01T08:00:00", 2, 12, "NRM", 1⟩]).events =
        [Event.transferComplete 1 1] ∧
      Event.errorSignal ∉
        (finalizeTransfer false ⟨none, 0, []⟩ "2024-02-02T00:00:00"
          [⟨"2024-01-01T08:00:00", 2, 12, "NRM", 1⟩]).events ∧
      (finalizeTransfer false ⟨none, 0, []⟩ "2024-02-02T00:00:00"
          [⟨"2024-01-01T08:00:00", 2, 12, "NRM", 1⟩]).persisted = ⟨none, 0, []⟩ ∧
      (finalizeTransfer false ⟨none, 0, []⟩ "2024-02-02T00:00:00"
          [⟨"2024-01-01T08:00:00", 2, 12, "NRM", 1⟩]).merged =
        [⟨"2024-01-01T08:00:00", 2, 12, "NRM", 1⟩] := by
  decide

/-- Claim C10: when the imported JSON parses to a content whose `readings`
field is an array, the import persists the imported content wholesale as the
new store, and any previously stored reading whose timestamp does not appear
in the imported file is no longer present. -/
theorem import_replaces_store (p : StoreData) (content : ImportFile)
    (rs : List Reading) (h : content.readings = some rs) :
    (importData p content).persisted =
        { lastSync := content.lastSync
          totalReadings := content.totalReadings
          readings := rs } ∧
      ∀ r ∈ p.readings, (∀ r' ∈ rs, r'.timestamp ≠ r.timestamp) →
        r ∉ (importData p content).persisted.readings := by
  unfold importData
  rw [h]
  refine ⟨rfl, ?_⟩
  intro r _ hne hmem
  exact hne r hmem rfl

/-- Witness for C10: importing a file drops a previously stored reading whose
timestamp is absent from the file. -/
theorem import_replaces_store_witness :
    (importData ⟨none, 1, [⟨"2024-01-01T08:00:00", 2, 12, "NRM", 1⟩]⟩
          ⟨some "2024-02-02T00:00:00", 1, some [⟨"2024-03-03T08:00:00", 3, 13, "HI", 1⟩]⟩).persisted =
        { lastSync := some "2024-02-02T00:00:00"
          totalReadings := 1
          readings := [⟨"2024-03-03T08:00:00", 3, 13, "HI", 1⟩] } ∧
      ⟨"2024-01-01T08:00:00", 2, 12, "NRM", 1⟩ ∉
        (importData ⟨none, 1, [⟨"2024-01-01T08:00:00", 2, 12, "NRM", 1⟩]⟩
          ⟨some "2024-02-02T00:00:00", 1,
            some [⟨"2024-03-03T08:00:00", 3, 13, "HI", 1⟩]⟩).persisted.readings := by
  have h := import_replaces_store
    ⟨none, 1, [⟨"2024-01-01T08:00:00", 2, 12, "NRM", 1⟩]⟩
    ⟨some "2024-02-02T00:00:00", 1, some [⟨"2024-03-03T08:00:00", 3, 13, "HI", 1⟩]⟩
    [⟨"2024-03-03T08:00:00", 3, 13, "HI", 1⟩] rfl
  exact ⟨h.1, h.2 _ (by decide) (by decide)⟩

/-- Claim C2 is false on the code: the shipped computation is the rounded
percentage of readings in range, not the Rosendaal linear interpolation.  At
readings of value 2.0 and 4.0 one hour apart with target range [2.0, 2.5],
the code reports 50 while the Rosendaal value of the spec is 25 (the
interpolated value is inside [2.0, 2.5] for the first quarter of the
interval only). -/
theorem reportTTR_diverges_from_rosendaal :
    reportTTR [⟨"2024-01-01T00:00:00", 2, 12, "NRM", 1⟩,
        ⟨"2024-01-01T01:00:00", 4, 12, "NRM", 2⟩] 2 (5 / 2) = 50 ∧
      rosendaalTTR [(0, 2), (1, 4)] 2 (5 / 2) = some 25 ∧
      (50 : ℚ) ≠ 25 := by
  refine ⟨?_, ?_, by norm_num⟩
  · norm_num [reportTTR, jsRound, List.filter]
  · norm_num [rosendaalTTR, inFrac, List.zip, List.zipWith, min_def, max_def]

/-- Claim C7 is false on the code: with fewer than two readings the code
still reports a number — 100 for a single in-range reading (the rounded
fraction of readings in range) and the literal 0 for an empty list — never
an unavailable/undefined marker (the computation's result type has no such
value).  The spec-modelled Rosendaal estimator is undefined there. -/
theorem reportTTR_defined_below_two_readings :
    reportTTR [⟨"2024-01-01T08:00:00", 5 / 2, 12, "NRM", 1⟩] 2 3 = 100 ∧
      reportTTR [] 2 3 = 0 ∧
      rosendaalTTR [(0, 5 / 2)] 2 3 = none ∧
      rosendaalTTR [] 2 3 = none := by
  refine ⟨?_, ?_, ?_, ?_⟩
  · norm_num [reportTTR, jsRound, List.filter]
  · norm_num [reportTTR]
  · norm_num [rosendaalTTR]
  · norm_num [rosendaalTTR]

theorem countReq_append (l1 l2 : List OutMsg) :
    countReq (l1 ++ l2) = countReq l1 + countReq l2 := by
  simp [countReq, List.filter_append]

theorem hasStatus_append (e1 e2 : List Event) :
    hasStatus (e1 ++ e2) = (hasStatus e1 || hasStatus e2) := by
  simp [hasStatus]

theorem reqInvT_add_event {flag : Bool} {es : List Event} {out : List OutMsg}
    (e : Event) (he : isStatusEvent e = false)
    (h : ReqInvT flag es out) : ReqInvT flag (es ++ [e]) out := by
  obtain ⟨h1, h2⟩ := h
  refine ⟨?_, h2⟩
  rw [hasStatus_append, ← h1]
  simp [hasStatus, he]

theorem reqInvT_add_ack {flag : Bool} {es : List Event} {out : List OutMsg}
    (b : Bool) (c : Nat)
    (h : ReqInvT flag es out) : ReqInvT flag es (out ++ [OutMsg.ack b c]) := by
  obtain ⟨h1, h2⟩ := h
  refine ⟨h1, ?_⟩
  cases flag with
  | false =>
    simp only [if_neg Bool.false_ne_true] at h2 ⊢
    rw [countReq_append, h2]
    rfl
  | true =>
    simp only [if_pos rfl] at h2 ⊢
    obtain ⟨pre, c', post, hout, hpre, hpost⟩ := h2
    refine ⟨pre, c', post ++ [OutMsg.ack b c], ?_, hpre, ?_⟩
    · rw [hout]
      simp [List.append_assoc]
    · rw [countReq_append, hpost]
      rfl

theorem reqInv_sendAck (b : Bool) (s : Sess) (h : ReqInv s) : ReqInv (sendAck b s) :=
  reqInvT_add_ack b (s.controlId + 1) h

theorem reqInv_helStep (s : Sess) (h : ReqInv s) : ReqInv (helStep s) := by
  unfold helStep
  cases hidx : idxOfSub s.buffer helEnd with
  | none => exact h
  | some i =>
    exact reqInvT_add_ack true _ (reqInvT_add_event Event.deviceIdent rfl h)

theorem reqInv_dstStepTail (s2 : Sess)
    (hstat : hasStatus s2.events = true)
    (htrue : s2.sentRequest = true → ReqInvT true s2.events s2.outbound)
    (hfalse : s2.sentRequest = false →
      ∃ pre, s2.outbound = pre ++ [OutMsg.ack true s2.controlId] ∧ countReq pre = 0) :
    ReqInv (dstStepTail s2) := by
  unfold dstStepTail
  cases hf : s2.sentRequest with
  | true =>
    simp only [if_pos rfl]
    show ReqInvT s2.sentRequest s2.events s2.outbound
    rw [hf]
    exact htrue hf
  | false =>
    simp only [Bool.false_eq_true, if_false]
    show ReqInvT true (s2.events ++ [Event.requesting])
      (s2.outbound ++ [OutMsg.reqObservations (s2.controlId + 1)])
    constructor
    · rw [hasStatus_append, hstat]
      rfl
    · simp only [if_pos rfl]
      obtain ⟨pre, hout, hpre⟩ := hfalse hf
      refine ⟨pre, s2.controlId, [], ?_, hpre, rfl⟩
      rw [hout]
      simp [List.append_assoc]

theorem reqInv_dstStep (s : Sess) (h : ReqInv s) : ReqInv (dstStep s) := by
  unfold dstStep
  cases hidx : idxOfSub s.buffer dstEnd with
  | none => exact h
  | some i =>
    apply reqInv_dstStepTail
    · show hasStatus (s.events ++ [Event.statusReport (parseQty (s.buffer.take (i + dstEnd.length)))]) = true
      rw [hasStatus_append]
      simp [hasStatus, isStatusEvent]
    · intro hf
      have hf' : s.sentRequest = true := hf
      show ReqInvT true
        (s.events ++ [Event.statusReport (parseQty (List.take (i + dstEnd.length) s.buffer))])
        (s.outbound ++ [OutMsg.ack true (s.controlId + 1)])
      obtain ⟨h1, h2⟩ := h
      rw [hf'] at h1 h2
      have hstep : ReqInvT true
          (s.events ++ [Event.statusReport (parseQty (List.take (i + dstEnd.length) s.buffer))])
          s.outbound := by
        refine ⟨?_, h2⟩
        rw [hasStatus_append, ← h1]
        rfl
      exact reqInvT_add_ack true (s.controlId + 1) hstep
    · intro hf
      have hf' : s.sentRequest = false := hf
      show ∃ pre, s.outbound ++ [OutMsg.ack true (s.controlId + 1)] =
          pre ++ [OutMsg.ack true (s.controlId + 1)] ∧ countReq pre = 0
      obtain ⟨h1, h2⟩ := h
      rw [hf'] at h2
      simp only [Bool.false_eq_true, if_false] at h2
      exact ⟨s.outbound, rfl, h2⟩

theorem reqInv_obsStep (accept : Bool) (s : Sess) (h : ReqInv s) :
    ReqInv (obsStep accept s) := by
  unfold obsStep
  cases hidx : idxOfSub s.buffer obsEnd with
  | none => exact h
  | some i =>
    exact reqInvT_add_ack accept _ (reqInvT_add_event (Event.progress _ _) rfl h)

theorem reqInv_eotStep (s : Sess) (h : ReqInv s) : ReqInv (eotStep s) := by
  unfold eotStep
  cases hidx : idxOfSub s.buffer eotEnd with
  | none => exact h
  | some i => exact reqInvT_add_ack true _ h

theorem reqInv_escStep (s : Sess) (h : ReqInv s) : ReqInv (escStep s) := by
  unfold escStep
  by_cases hc : (hasSub s.buffer escEnd || hasSub s.buffer errStart) = true
  · rw [if_pos hc]
    exact reqInvT_add_event Event.errorSignal rfl h
  · rw [if_neg hc]
    exact h

theorem reqInv_processMessages (accept : Bool) (s : Sess) (h : ReqInv s) :
    ReqInv (processMessages accept s) :=
  reqInv_escStep _ (reqInv_eotStep _ (reqInv_obsStep accept _ (reqInv_dstStep _
    (reqInv_helStep _ h))))

theorem reqInv_onData (accept : Bool) (s : Sess) (chunk : List Char) (h : ReqInv s) :
    ReqInv (onData accept s chunk) :=
  reqInv_processMessages accept _ h

theorem reqInv_foldl (accept : Bool) (chunks : List (List Char)) (s : Sess)
    (h : ReqInv s) : ReqInv (chunks.foldl (onData accept) s) := by
  induction chunks generalizing s with
  | nil => exact h
  | cons c t ih => exact ih _ (reqInv_onData accept s c h)

theorem reqInv_runSession (accept : Bool) (chunks : List (List Char)) :
    ReqInv (runSession accept chunks) :=
  reqInv_foldl accept chunks initSess ⟨rfl, rfl⟩

/-- Claim C9, amended on the ordering: in every session, whatever data chunks
arrive, the engine emits the read-observations request exactly once — on the
pass that processes the first StatusReport (the `sentRequest` flag and the
status-report event log rise together), and never again on any later
StatusReport — and the request is emitted immediately after (not before) the
accepting acknowledgment sent for that StatusReport, carrying the next
control id; when no StatusReport is ever processed, no request is ever
sent. -/
theorem request_emitted_once_after_status_ack (accept : Bool)
    (chunks : List (List Char)) :
    (runSession accept chunks).sentRequest = hasStatus (runSession accept chunks).events ∧
      (hasStatus (runSession accept chunks).events = true →
        ∃ pre c post,
          (runSession accept chunks).outbound =
            pre ++ [OutMsg.ack true c, OutMsg.reqObservations (c + 1)] ++ post ∧
            countReq pre = 0 ∧ countReq post = 0) ∧
      (hasStatus (runSession accept chunks).events = false →
        countReq (runSession accept chunks).outbound = 0) := by
  obtain ⟨h1, h2⟩ := reqInv_runSession accept chunks
  refine ⟨h1, ?_, ?_⟩
  · intro hs
    rw [h1, hs] at h2
    simpa using h2
  · intro hs
    rw [h1, hs] at h2
    simpa using h2

/-- Witness for the amended C9: a session receiving two StatusReports sends
exactly one request, right after the first StatusReport's acknowledgment. -/
theorem request_emitted_once_after_status_ack_witness :
    ∃ pre c post,
      (runSession true [dstChunk, dstChunk]).outbound =
        pre ++ [OutMsg.ack true c, OutMsg.reqObservations (c + 1)] ++ post ∧
        countReq pre = 0 ∧ countReq post = 0 :=
  (request_emitted_once_after_status_ack true [dstChunk, dstChunk]).2.1 (by decide)

theorem truthy_pos_eq (o : Option ℚ) :
    (match o with
      | some v => decide (v ≠ 0) && decide (v > 0)
      | none => false) =
      (match o with
       | some v => decide (0 < v)
       | none => false) := by
  cases o with
  | none => rfl
  | some v =>
    by_cases hv : 0 < v
    · simp [hv, ne_of_gt hv]
    · simp [hv]

theorem obsValid_eq_specAccept (g : RawSvc) (h : g.dttm ≠ some "") :
    obsValid (buildObs g) = specAccept g := by
  unfold obsValid buildObs specAccept
  cases hd : g.dttm with
  | none => rfl
  | some t =>
    have ht : ¬(t = "") := fun he => h (by rw [hd, he])
    simp only [Option.isSome_some, decide_eq_true ht]
    rw [truthy_pos_eq (g.inrRaw.bind parseNum), truthy_pos_eq (g.ptRaw.bind parseNum)]

/-- Claim C6: a `<SVC>` group of an ObservationBatch appears in the
extractor's output exactly when its timestamp attribute is present, its
primary assay value (code 34714-6) parses as a number strictly greater than
zero, and its secondary duration value (code 5902-2) parses as a number
strictly greater than zero; every group failing any condition is dropped
while the remaining groups of the same batch are still extracted, in order —
the output is precisely the accepted groups' records.  The hypothesis
reflects the extraction regexes: a captured timestamp matches `([^"]+)` and
is never the empty string. -/
theorem extractor_accepts_iff (gs : List RawSvc)
    (h : ∀ g ∈ gs, g.dttm ≠ some "") :
    parseObservationsXml gs = (gs.filter specAccept).map buildObs := by
  induction gs with
  | nil => rfl
  | cons g t ih =>
    have hg := obsValid_eq_specAccept g (h g (List.mem_cons_self g t))
    have iht := ih (fun g' hg' => h g' (List.mem_cons_of_mem _ hg'))
    rw [parseObservationsXml]
    simp only [hg, List.filter_cons]
    cases hs : specAccept g with
    | false => simpa using iht
    | true => simpa using iht

/-- Witness for C6: a batch with one valid group, one group missing the
primary value, and one group with a negative secondary value. -/
theorem extractor_accepts_iff_witness :
    parseObservationsXml
        [⟨some "2024-01-01T08:00:00", some "NRM", some "2.5", some "12.3"⟩,
          ⟨some "2024-01-01T09:00:00", some "NRM", none, some "12.3"⟩,
          ⟨some "2024-01-01T10:00:00", some "NRM", some "2.5", some "-1"⟩] =
      (List.filter specAccept
        [⟨some "2024-01-01T08:00:00", some "NRM", some "2.5", some "12.3"⟩,
          ⟨some "2024-01-01T09:00:00", some "NRM", none, some "12.3"⟩,
          ⟨some "2024-01-01T10:00:00", some "NRM", some "2.5", some "-1"⟩]).map buildObs :=
  extractor_accepts_iff _ (by decide)

end CoagSense
